import Mathlib

/-!
# Verification of the flatten-repo pipeline

Shallow embedding of the flatten-repo tool (src/lib.rs, src/main.rs): a
discovery / filter / classify / serialize pipeline that expands path and glob
entries against a filesystem, filters the candidates through compiled ignore
patterns and git ignore rules, classifies every surviving file as binary or
text from a bounded prefix of a replacement-decoded byte stream, and emits one
XML document with one element per file.

Modelling conventions:

* Rust strings (paths, decoded contents, the XML document) are modelled as
  lists of Unicode scalar values, `Str := List Nat`.
* Raw file contents are lists of bytes, `List Nat` with values below 256.
* The filesystem, the glob crate, the git oracle and the fnmatch compiler are
  external collaborators of the code under test; they are modelled as an
  explicit `Env` record of oracles (the code only observes their answers).
  The git oracle field already folds the fail-open behaviour of
  `is_ignored_by_git` (`unwrap_or(false)` and the null oracle).
* The `encoding_rs_io` decoder configured with `UTF_8` in `read_file_contents`
  is modelled by its documented semantics: WHATWG UTF-8 decode with maximal
  subpart replacement (the same substitution policy as Rust
  `String::from_utf8_lossy`), re-encoded as a UTF-8 byte stream.  The
  `take(8192)` limit applies to that decoded byte stream: `Take` caps every
  underlying read at the remaining limit, and the decoder serves split
  characters byte by byte through its internal buffer, so `read_to_end` on the
  limited reader returns exactly the first 8192 decoded bytes whenever the
  stream is that long.  The later `read_to_string` validates the bytes it
  reads, in isolation, as strict UTF-8 and fails with an InvalidData error
  otherwise; this is modelled by `utf8ValidB` on the remainder of the decoded
  stream.
-/

/-- Rust `String` values modelled as lists of Unicode scalar values. -/
abbrev Str := List Nat

/-- The `Error` enum of src/lib.rs, with the variants the core pipeline can
actually produce.  `io` covers `Error::Io`, `globPat` covers
`Error::GlobPattern`, `fnmatchPat` covers `Error::FNMatchPattern`. -/
inductive Error where
  | io
  | globPat
  | fnmatchPat
  deriving DecidableEq, Repr

/-- `BINARY_FILE_CHECK_SIZE` from src/lib.rs. -/
def BINARY_FILE_CHECK_SIZE : Nat := 8192

/-- A UTF-8 continuation byte: `0x80 ..= 0xBF`. -/
def contOk (b : Nat) : Bool := decide (128 ≤ b ∧ b ≤ 191)

/-- Allowed range of the first continuation byte after a three-byte lead,
per the WHATWG UTF-8 decoder (E0 narrows the low end, ED excludes
surrogates). -/
def cont1Ok3 (b b1 : Nat) : Bool :=
  if b = 224 then decide (160 ≤ b1 ∧ b1 ≤ 191)
  else if b = 237 then decide (128 ≤ b1 ∧ b1 ≤ 159)
  else contOk b1

/-- Allowed range of the first continuation byte after a four-byte lead,
per the WHATWG UTF-8 decoder (F0 narrows the low end, F4 caps at U+10FFFF). -/
def cont1Ok4 (b b1 : Nat) : Bool :=
  if b = 240 then decide (144 ≤ b1 ∧ b1 ≤ 191)
  else if b = 244 then decide (128 ≤ b1 ∧ b1 ≤ 143)
  else contOk b1

/-- Standard UTF-8 encoding of one Unicode scalar value. -/
def utf8EncodeNat (v : Nat) : List Nat :=
  if v < 128 then [v]
  else if v < 2048 then [192 + v / 64, 128 + v % 64]
  else if v < 65536 then [224 + v / 4096, 128 + v / 64 % 64, 128 + v % 64]
  else [240 + v / 262144, 128 + v / 4096 % 64, 128 + v / 64 % 64, 128 + v % 64]

/-- The WHATWG UTF-8 decoder with replacement (as implemented by
`encoding_rs` for `UTF_8`, and by Rust `String::from_utf8_lossy`): the input
byte list is cut into chunks, each chunk being either a complete valid
sequence (decoding to its scalar value) or a maximal subpart of an invalid
sequence (decoding to U+FFFD = 65533).  On an invalid continuation byte the
offending byte is not consumed; it restarts the next chunk. -/
def utf8Chunks : List Nat → List (List Nat × Nat)
  | [] => []
  | b :: rest =>
    if b < 128 then ([b], b) :: utf8Chunks rest
    else if 194 ≤ b ∧ b ≤ 223 then
      match rest with
      | [] => [([b], 65533)]
      | b1 :: rest1 =>
        if contOk b1 then
          ([b, b1], (b - 192) * 64 + (b1 - 128)) :: utf8Chunks rest1
        else ([b], 65533) :: utf8Chunks (b1 :: rest1)
    else if 224 ≤ b ∧ b ≤ 239 then
      match rest with
      | [] => [([b], 65533)]
      | b1 :: rest1 =>
        if cont1Ok3 b b1 then
          match rest1 with
          | [] => [([b, b1], 65533)]
          | b2 :: rest2 =>
            if contOk b2 then
              ([b, b1, b2], (b - 224) * 4096 + (b1 - 128) * 64 + (b2 - 128)) ::
                utf8Chunks rest2
            else ([b, b1], 65533) :: utf8Chunks (b2 :: rest2)
        else ([b], 65533) :: utf8Chunks (b1 :: rest1)
    else if 240 ≤ b ∧ b ≤ 244 then
      match rest with
      | [] => [([b], 65533)]
      | b1 :: rest1 =>
        if cont1Ok4 b b1 then
          match rest1 with
          | [] => [([b, b1], 65533)]
          | b2 :: rest2 =>
            if contOk b2 then
              match rest2 with
              | [] => [([b, b1, b2], 65533)]
              | b3 :: rest3 =>
                if contOk b3 then
                  ([b, b1, b2, b3],
                    (b - 240) * 262144 + (b1 - 128) * 4096 + (b2 - 128) * 64 +
                      (b3 - 128)) :: utf8Chunks rest3
                else ([b, b1, b2], 65533) :: utf8Chunks (b3 :: rest3)
            else ([b, b1], 65533) :: utf8Chunks (b2 :: rest2)
        else ([b], 65533) :: utf8Chunks (b1 :: rest1)
    else ([b], 65533) :: utf8Chunks rest

/-- The scalar values produced by replacement decoding (the model of both the
streaming decoder and of `String::from_utf8_lossy`). -/
def utf8DecodeLossy (l : List Nat) : Str := (utf8Chunks l).map Prod.snd

/-- The decoded byte stream served by the `encoding_rs_io` reader: the
replacement-decoded scalars, re-encoded as UTF-8 bytes. -/
def decodedStream (l : List Nat) : List Nat :=
  (utf8Chunks l).flatMap fun pr => utf8EncodeNat pr.2

/-- Strict UTF-8 validity of a byte list (the check `Read::read_to_string`
performs on the bytes it reads). -/
def utf8ValidB : List Nat → Bool
  | [] => true
  | b :: rest =>
    if b < 128 then utf8ValidB rest
    else if 194 ≤ b ∧ b ≤ 223 then
      match rest with
      | [] => false
      | b1 :: rest1 => if contOk b1 then utf8ValidB rest1 else false
    else if 224 ≤ b ∧ b ≤ 239 then
      match rest with
      | [] => false
      | b1 :: rest1 =>
        if cont1Ok3 b b1 then
          match rest1 with
          | [] => false
          | b2 :: rest2 => if contOk b2 then utf8ValidB rest2 else false
        else false
    else if 240 ≤ b ∧ b ≤ 244 then
      match rest with
      | [] => false
      | b1 :: rest1 =>
        if cont1Ok4 b b1 then
          match rest1 with
          | [] => false
          | b2 :: rest2 =>
            if contOk b2 then
              match rest2 with
              | [] => false
              | b3 :: rest3 => if contOk b3 then utf8ValidB rest3 else false
            else false
        else false
    else false

/-- `FlattenRepo::read_file_contents` (src/lib.rs lines 181-203), over the
raw bytes of an opened file.  The function reads the first
`BINARY_FILE_CHECK_SIZE` bytes of the decoded stream; a zero byte there means
binary (content never materialized).  Otherwise the initial chunk is converted
with `String::from_utf8_lossy` and the remainder of the decoded stream is
appended by `read_to_string`, which fails with an I/O (InvalidData) error
unless those remaining bytes are strict UTF-8. -/
def read_file_contents (bytes : List Nat) : Except Error (Bool × Option Str) :=
  if 0 ∈ (decodedStream bytes).take BINARY_FILE_CHECK_SIZE then .ok (true, none)
  else if utf8ValidB ((decodedStream bytes).drop BINARY_FILE_CHECK_SIZE) then
    .ok (false, some
      (utf8DecodeLossy ((decodedStream bytes).take BINARY_FILE_CHECK_SIZE) ++
        utf8DecodeLossy ((decodedStream bytes).drop BINARY_FILE_CHECK_SIZE)))
  else .error .io

/-- A compiled `yash_fnmatch::Pattern`.  The library is external, so a
compiled pattern is modelled by its observable behaviour: `find` locates a
match of the pattern anywhere in the given path string (find-style substring
matching, not anchored), returning the match position when one exists. -/
structure Pat where
  find : Str → Option Nat

/-- The external collaborators of the pipeline, as oracles over a fixed
filesystem snapshot and process state: `Path::is_dir` / `Path::is_file`,
`glob::glob` (either a pattern error for the whole entry, or the list of
per-match results, each a path or a per-match `GlobError`), the git
ignore query with its fail-open behaviour already folded in, the raw bytes
behind `File::open` plus the reads (`none` models an I/O failure on open or
read), and `Pattern::parse(without_escape(p))`. -/
structure Env where
  isDir : Str → Bool
  isFile : Str → Bool
  glob : Str → Except Error (List (Except Error Str))
  gitIgnored : Str → Bool
  fileBytes : Str → Option (List Nat)
  compilePattern : Str → Except Error Pat

/-- The `Config` struct of src/lib.rs. -/
structure Config where
  recursive : Bool
  verbose : Bool
  ignore_patterns : List Str
  paths : List Str

/-- The `FlattenRepo` struct of src/lib.rs; the `git_repo` handle lives in
`Env.gitIgnored`. -/
structure FlattenRepo where
  config : Config
  ignore_patterns : List Pat

/-- The `"."` path string. -/
def dotPath : Str := [46]

/-- `config.ignore_patterns.iter().map(parse).collect::<Result<Vec<_>>>()`:
compile every pattern, stopping at the first error. -/
def compileAll (env : Env) : List Str → Except Error (List Pat)
  | [] => .ok []
  | p :: ps =>
    match env.compilePattern p with
    | .error e => .error e
    | .ok pat =>
      match compileAll env ps with
      | .error e => .error e
      | .ok pats => .ok (pat :: pats)

/-- The path defaulting at the top of `FlattenRepo::new` (and duplicated in
`main`): if no path was provided, use `"."`. -/
def defaultPaths (config : Config) : Config :=
  if config.paths.isEmpty then { config with paths := [dotPath] } else config

/-- `FlattenRepo::new` (src/lib.rs lines 58-78): default the paths to `["."]`
when empty, then compile the ignore patterns, failing on the first malformed
pattern. -/
def FlattenRepo.new (env : Env) (config : Config) : Except Error FlattenRepo :=
  match compileAll env (defaultPaths config).ignore_patterns with
  | .error e => .error e
  | .ok pats => .ok ⟨defaultPaths config, pats⟩

/-- `FlattenRepo::is_ignored_by_patterns` (src/lib.rs lines 101-105):
true when any compiled pattern finds a match anywhere in the path. -/
def is_ignored_by_patterns (fr : FlattenRepo) (path : Str) : Bool :=
  fr.ignore_patterns.any fun pat => (pat.find path).isSome

/-- `path.strip_prefix(".").unwrap_or(&path)`: remove a leading current
directory component when present, otherwise keep the path unchanged. -/
def stripDot (p : Str) : Str :=
  if p = dotPath then [] else if p.take 2 = [46, 47] then p.drop 2 else p

/-- The globstar rewrite at the top of the `find_files` loop: a directory
entry becomes `entry ++ "/**/*"` in recursive mode. -/
def rewriteEntry (fr : FlattenRepo) (env : Env) (pat : Str) : Str :=
  if fr.config.recursive && env.isDir pat then pat ++ [47, 42, 42, 47, 42]
  else pat

/-- The body of the inner glob loop of `find_files` (src/lib.rs lines
143-173), one candidate at a time over the accumulator (seen set, ordered
output).  A per-match `Err` is logged and skipped; non-files, duplicates,
pattern-ignored and git-ignored candidates are skipped; survivors are
appended and remembered. -/
def globStep (fr : FlattenRepo) (env : Env) (acc : List Str × List Str)
    (entry : Except Error Str) : List Str × List Str :=
  match entry with
  | .error _ => acc
  | .ok path =>
    if env.isFile path then
      if stripDot path ∈ acc.1 then acc
      else if is_ignored_by_patterns fr (stripDot path) then acc
      else if env.gitIgnored (stripDot path) then acc
      else (stripDot path :: acc.1, acc.2 ++ [stripDot path])
    else acc

/-- The entry loop of `FlattenRepo::find_files` (src/lib.rs lines 108-177),
carrying the seen set and the ordered output across entries.  The direct-file
fast path mirrors lines 123-140; otherwise the entry is glob-expanded, a
pattern error for the whole entry aborting the run. -/
def findFilesGo (fr : FlattenRepo) (env : Env) :
    List Str → List Str → List Str → Except Error (List Str)
  | [], _seen, files => .ok files
  | pat :: rest, seen, files =>
    if env.isFile (rewriteEntry fr env pat) then
      if stripDot (rewriteEntry fr env pat) ∈ seen then
        findFilesGo fr env rest seen files
      else if is_ignored_by_patterns fr (stripDot (rewriteEntry fr env pat)) then
        findFilesGo fr env rest seen files
      else if env.gitIgnored (stripDot (rewriteEntry fr env pat)) then
        findFilesGo fr env rest seen files
      else
        findFilesGo fr env rest (stripDot (rewriteEntry fr env pat) :: seen)
          (files ++ [stripDot (rewriteEntry fr env pat)])
    else
      match env.glob (rewriteEntry fr env pat) with
      | .error e => .error e
      | .ok entries =>
        findFilesGo fr env rest
          (entries.foldl (globStep fr env) (seen, files)).1
          (entries.foldl (globStep fr env) (seen, files)).2

/-- `FlattenRepo::find_files`. -/
def find_files (fr : FlattenRepo) (env : Env) : Except Error (List Str) :=
  findFilesGo fr env fr.config.paths [] []

/-- Opening and reading one file through the env: `File::open` failure is an
I/O error, otherwise `read_file_contents` runs on the raw bytes. -/
def readFileC (env : Env) (p : Str) : Except Error (Bool × Option Str) :=
  match env.fileBytes p with
  | none => .error .io
  | some bs => read_file_contents bs

/-- One emitted `<file>` element, as data: the `path` attribute value and
either `none` (binary: empty element with `binary="true"`) or `some content`
(text: element with an escaped text body).  `read_file_contents` never
returns a text classification without content, so the element a file produces
is fully described by this pair. -/
structure Item where
  path : Str
  content : Option Str
  deriving DecidableEq, Repr

/-- The element data produced for one file inside the loop of
`generate_xml_from_files` (src/lib.rs lines 213-233): read the file, then
either a binary empty element or a text element.  The unreachable
`(false, None)` case renders identically to an empty text body. -/
def fileItem (env : Env) (p : Str) : Except Error Item :=
  match readFileC env p with
  | .error e => .error e
  | .ok (true, _) => .ok ⟨p, none⟩
  | .ok (false, co) => .ok ⟨p, some (co.getD [])⟩

/-- The per-file loop of `generate_xml_from_files`: read every file in order,
aborting on the first read error (the partially written buffer is discarded
when an error is returned). -/
def buildItems (env : Env) : List Str → Except Error (List Item)
  | [] => .ok []
  | p :: ps =>
    match fileItem env p with
    | .error e => .error e
    | .ok it =>
      match buildItems env ps with
      | .error e => .error e
      | .ok its => .ok (it :: its)

/-- The quick_xml `escape` table applied by `BytesText::new` to text bodies
and by `push_attribute` to attribute values: the five XML metacharacters
amp, lt, gt, apos, quot become entities; every other scalar is passed
through. -/
def escChar (c : Nat) : Str :=
  if c = 38 then [38, 97, 109, 112, 59]
  else if c = 60 then [38, 108, 116, 59]
  else if c = 62 then [38, 103, 116, 59]
  else if c = 39 then [38, 97, 112, 111, 115, 59]
  else if c = 34 then [38, 113, 117, 111, 116, 59]
  else [c]

/-- XML escaping of a whole string. -/
def escape (s : Str) : Str := s.flatMap escChar

/-- The literal `<file path="` (codes of `<`, `f`, `i`, `l`, `e`, space,
`p`, `a`, `t`, `h`, `=`, `"`). -/
def itemOpenC : Str := [60, 102, 105, 108, 101, 32, 112, 97, 116, 104, 61, 34]

/-- The literal `"` closing the path attribute value. -/
def quoteC : Str := [34]

/-- The literal ` binary="true"/>` finishing a binary empty element. -/
def binTailC : Str :=
  [32, 98, 105, 110, 97, 114, 121, 61, 34, 116, 114, 117, 101, 34, 47, 62]

/-- The literal `>` closing a text element start tag. -/
def gtC : Str := [62]

/-- The literal `</file>`. -/
def fileCloseC : Str := [60, 47, 102, 105, 108, 101, 62]

/-- The XML declaration written by the writer:
`<?xml version="1.0" encoding="UTF-8"?>`. -/
def declC : Str :=
  [60, 63, 120, 109, 108, 32, 118, 101, 114, 115, 105, 111, 110, 61, 34, 49,
   46, 48, 34, 32, 101, 110, 99, 111, 100, 105, 110, 103, 61, 34, 85, 84, 70,
   45, 56, 34, 63, 62]

/-- The literal `<repository>`. -/
def repoOpenC : Str :=
  [60, 114, 101, 112, 111, 115, 105, 116, 111, 114, 121, 62]

/-- The literal `</repository>`. -/
def repoCloseC : Str :=
  [60, 47, 114, 101, 112, 111, 115, 105, 116, 111, 114, 121, 62]

/-- The bytes the writer emits for one `<file>` element. -/
def renderItem (it : Item) : Str :=
  match it.content with
  | none => itemOpenC ++ escape it.path ++ quoteC ++ binTailC
  | some c =>
    itemOpenC ++ escape it.path ++ quoteC ++ gtC ++ escape c ++ fileCloseC

/-- The whole document emitted by `generate_xml_from_files`: declaration,
root start tag, one element per file in order, root end tag (the writer adds
no whitespace between events). -/
def renderDoc (items : List Item) : Str :=
  declC ++ repoOpenC ++ items.flatMap renderItem ++ repoCloseC

/-- `FlattenRepo::generate_xml_from_files` (src/lib.rs lines 206-241): the
incremental writer produces exactly `renderDoc` of the per-file items, or the
first error; the final `String::from_utf8` cannot fail because every written
piece is a `&str`. -/
def generate_xml_from_files (env : Env) (files : List Str) : Except Error Str :=
  match buildItems env files with
  | .error e => .error e
  | .ok its => .ok (renderDoc its)

/-- `FlattenRepo::generate_xml` (src/lib.rs lines 81-84). -/
def generate_xml (fr : FlattenRepo) (env : Env) : Except Error Str :=
  match find_files fr env with
  | .error e => .error e
  | .ok files => generate_xml_from_files env files

/-- The same defaulting is performed in `main` before constructing the
config: if neither the arguments nor stdin supplied a path, `main` pushes
`"."` itself. -/
def mainCfg (cfg : Config) : Config := defaultPaths cfg

/-- What `main` (src/main.rs lines 47-85) writes to standard output, given
the already-merged argument/stdin config: the XML plus the trailing newline
of `println!` on success, nothing at all on any initialization or generation
error (errors go to stderr and the process exits non-zero). -/
def mainOut (env : Env) (cfg : Config) : Option Str :=
  match FlattenRepo.new env (mainCfg cfg) with
  | .error _ => none
  | .ok fr =>
    match generate_xml fr env with
    | .error _ => none
    | .ok xml => some (xml ++ [10])

/-- Entity scanner for `unescape`: after an ampersand, recognize one of the
five entity tails (`amp;`, `lt;`, `gt;`, `apos;`, `quot;`), returning the
decoded character and the remaining input. -/
def entScan (rest : Str) : Option (Nat × Str) :=
  if rest.take 4 = [97, 109, 112, 59] then some (38, rest.drop 4)
  else if rest.take 3 = [108, 116, 59] then some (60, rest.drop 3)
  else if rest.take 3 = [103, 116, 59] then some (62, rest.drop 3)
  else if rest.take 5 = [97, 112, 111, 115, 59] then some (39, rest.drop 5)
  else if rest.take 5 = [113, 117, 111, 116, 59] then some (34, rest.drop 5)
  else none

/-- Fuel-bounded entity rewriting; each step consumes at least one input
element, so fuel equal to the input length suffices. -/
def unescapeF : Nat → Str → Str
  | 0, _ => []
  | _ + 1, [] => []
  | fuel + 1, c :: rest =>
    if c = 38 then
      match entScan rest with
      | some pr => pr.1 :: unescapeF fuel pr.2
      | none => 38 :: unescapeF fuel rest
    else c :: unescapeF fuel rest

/-- Inverse of `escChar`: rewrite the five XML entities back to their
characters; a stray ampersand is kept literally. -/
def unescape (s : Str) : Str := unescapeF s.length s

/-- Strip an exact literal from the front of the input, or fail. -/
def dropPre : Str → Str → Option Str
  | [], s => some s
  | _ :: _, [] => none
  | p :: ps, c :: cs => if c = p then dropPre ps cs else none

/-- Split the input at the first quote (code 34): the part before it and the
part after it. -/
def splitAt34 : Str → Option (Str × Str)
  | [] => none
  | c :: rest =>
    if c = 34 then some ([], rest)
    else (splitAt34 rest).map fun pr => (c :: pr.1, pr.2)

/-- Split the input at the first `<` (code 60): the part before it and the
part from the `<` on. -/
def splitAt60 : Str → Option (Str × Str)
  | [] => none
  | c :: rest =>
    if c = 60 then some ([], c :: rest)
    else (splitAt60 rest).map fun pr => (c :: pr.1, pr.2)

/-- Fuel-bounded parser for the sequence of `<file>` elements followed by the
closing root tag, recovering each element as an `Item` with unescaped path
and content. -/
def parseItemsF : Nat → Str → Option (List Item)
  | 0, _ => none
  | fuel + 1, s =>
    match dropPre repoCloseC s with
    | some rest => if rest = [] then some [] else none
    | none =>
      match dropPre itemOpenC s with
      | none => none
      | some s1 =>
        match splitAt34 s1 with
        | none => none
        | some (rawPath, s2) =>
          match dropPre binTailC s2 with
          | some s3 =>
            match parseItemsF fuel s3 with
            | none => none
            | some its => some (⟨unescape rawPath, none⟩ :: its)
          | none =>
            match dropPre gtC s2 with
            | none => none
            | some s3 =>
              match splitAt60 s3 with
              | none => none
              | some (rawContent, s4) =>
                match dropPre fileCloseC s4 with
                | none => none
                | some s5 =>
                  match parseItemsF fuel s5 with
                  | none => none
                  | some its =>
                    some (⟨unescape rawPath, some (unescape rawContent)⟩ :: its)

/-- Parse a whole document produced by the pipeline: XML declaration, root
start tag, the file elements, root end tag, end of input. -/
def parseDoc (s : Str) : Option (List Item) :=
  match dropPre declC s with
  | none => none
  | some s1 =>
    match dropPre repoOpenC s1 with
    | none => none
    | some s2 => parseItemsF (s2.length + 1) s2

/-- True when `read_file_contents` classifies the bytes as a text file. -/
def classifiedText (bytes : List Nat) : Bool :=
  match read_file_contents bytes with
  | .ok (false, _) => true
  | _ => false

/-- Counterexample input for the raw-prefix reading of binary detection:
5462 ASCII `a` bytes, then 910 invalid `0xFF` bytes (each decoding to a
three-byte replacement character, together 5462 + 2730 = 8192 decoded bytes),
then a zero byte at raw offset 6372, inside the first 8192 raw bytes but just
past the first 8192 decoded bytes. -/
def exBytes : List Nat := List.replicate 5462 97 ++ (List.replicate 910 255 ++ [0])

/-- Failing input for the text read path: 8191 ASCII `a` bytes followed by a
two-byte UTF-8 sequence (`0xC3 0xA9`), a perfectly valid 8193-byte UTF-8
file whose multi-byte character straddles the 8192-byte probe boundary. -/
def c5bytes : List Nat := List.replicate 8191 97 ++ [195, 169]

/-- A compiled pattern that never matches. -/
def patNone : Pat := ⟨fun _ => none⟩

/-- The path string `a`. -/
def fileA : Str := [97]

/-- A compiled pattern matching exactly the path `a` (at position 0). -/
def patA : Pat := ⟨fun p => if p == fileA then some 0 else none⟩

/-- Witness filesystem: a single regular file `a` with contents `hi`, no
directories, no git ignores, globs expand to nothing, every ignore pattern
compiles to a never-matching pattern. -/
def envOk : Env :=
  ⟨fun _ => false, fun p => p == fileA, fun _ => .ok [], fun _ => false,
   fun p => if p == fileA then some [104, 105] else none, fun _ => .ok patNone⟩

/-- Witness filesystem where the file `a` exists but every open/read fails. -/
def envErr : Env :=
  ⟨fun _ => false, fun p => p == fileA, fun _ => .ok [], fun _ => false,
   fun _ => none, fun _ => .ok patNone⟩

/-- Witness filesystem where the file `a` exists and is empty. -/
def envEmpty : Env :=
  ⟨fun _ => false, fun p => p == fileA, fun _ => .ok [], fun _ => false,
   fun p => if p == fileA then some [] else none, fun _ => .ok patNone⟩

/-- Witness filesystem where every glob expansion fails with a pattern
error and nothing is a file or directory. -/
def envGlob : Env :=
  ⟨fun _ => false, fun _ => false, fun _ => .error .globPat, fun _ => false,
   fun _ => none, fun _ => .ok patNone⟩

/-- Witness pattern compiler: the pattern `[` (code 91) is malformed, all
others compile. -/
def envPat : Env :=
  ⟨fun _ => false, fun p => p == fileA, fun _ => .ok [], fun _ => false,
   fun p => if p == fileA then some [104, 105] else none,
   fun p => if p == [91] then .error .fnmatchPat else .ok patNone⟩

/-- Witness config listing the file `a` twice. -/
def cfgDup : Config := ⟨true, false, [], [fileA, fileA]⟩

/-- `FlattenRepo` value for `cfgDup` with no compiled patterns. -/
def frDup : FlattenRepo := ⟨cfgDup, []⟩

/-- Witness `FlattenRepo` whose single compiled ignore pattern matches the
single configured path `a`. -/
def frIgn : FlattenRepo := ⟨⟨true, false, [[42]], [fileA]⟩, [patA]⟩

/-- Witness config with the single entry `b` (code 98), which is not a file,
so it goes through glob expansion. -/
def cfgGlob : Config := ⟨true, false, [], [[98]]⟩

/-- `FlattenRepo` value for `cfgGlob`. -/
def frGlob : FlattenRepo := ⟨cfgGlob, []⟩

/-- Witness config whose only ignore pattern is the malformed `[`. -/
def cfgPat : Config := ⟨true, false, [[91]], [fileA]⟩

/-- Witness config selecting just the file `a` with no ignore patterns. -/
def cfgA : Config := ⟨true, false, [], [fileA]⟩

/-- `FlattenRepo` value for `cfgA`. -/
def frA : FlattenRepo := ⟨cfgA, []⟩

/-- Invariant carried through the discovery loop: the output so far has no
duplicates, is covered by the seen set, and contains no pattern-ignored
path. -/
def DiscInv (fr : FlattenRepo) (seen files : List Str) : Prop :=
  files.Nodup ∧ (∀ p ∈ files, p ∈ seen) ∧
    (∀ p ∈ files, is_ignored_by_patterns fr p = false)

/-! ## Properties of the UTF-8 replacement decoder -/

theorem enc_no_zero (v : Nat) (hv : v ≠ 0) : 0 ∉ utf8EncodeNat v := by
  unfold utf8EncodeNat
  split_ifs <;> simp <;> omega

theorem chunkOkAscii (b : Nat) (hb : b < 128) :
    ([b], b).1 ≠ [] ∧ ([b], b).1.length ≤ (utf8EncodeNat b).length ∧
      (0 ∈ utf8EncodeNat b → ([b], b).1 = [0]) := by
  refine ⟨by simp, ?_, ?_⟩
  · unfold utf8EncodeNat
    rw [if_pos hb]
  · intro h0
    unfold utf8EncodeNat at h0
    rw [if_pos hb] at h0
    simp at h0
    simp [h0]

theorem chunkOkBad (pre : List Nat) (hlen : pre.length ≤ 3) (hpre : pre ≠ []) :
    (pre, 65533).1 ≠ [] ∧ (pre, 65533).1.length ≤ (utf8EncodeNat 65533).length ∧
      (0 ∈ utf8EncodeNat 65533 → (pre, 65533).1 = [0]) := by
  refine ⟨hpre, ?_, ?_⟩
  · show pre.length ≤ (utf8EncodeNat 65533).length
    have h3 : (utf8EncodeNat 65533).length = 3 := by rfl
    omega
  · intro h0
    exact absurd h0 (enc_no_zero 65533 (by omega))

theorem chunkOk2 (b b1 : Nat) (hb : 194 ≤ b ∧ b ≤ 223) (h1 : contOk b1 = true) :
    ([b, b1], (b - 192) * 64 + (b1 - 128)).1 ≠ [] ∧
      ([b, b1], (b - 192) * 64 + (b1 - 128)).1.length ≤
        (utf8EncodeNat ((b - 192) * 64 + (b1 - 128))).length ∧
      (0 ∈ utf8EncodeNat ((b - 192) * 64 + (b1 - 128)) →
        ([b, b1], (b - 192) * 64 + (b1 - 128)).1 = [0]) := by
  simp only [contOk, decide_eq_true_eq] at h1
  refine ⟨by simp, ?_, ?_⟩
  · unfold utf8EncodeNat
    rw [if_neg (by omega), if_pos (by omega)]
    simp
  · intro h0
    exact absurd h0 (enc_no_zero _ (by omega))

theorem cont1Ok3_bounds (b b1 : Nat) (hb : 224 ≤ b ∧ b ≤ 239)
    (h1 : cont1Ok3 b b1 = true) :
    2048 ≤ (b - 224) * 4096 + (b1 - 128) * 64 ∧ 128 ≤ b1 ∧ b1 ≤ 191 := by
  unfold cont1Ok3 at h1
  split_ifs at h1 with hb0 hbD <;>
    simp only [contOk, decide_eq_true_eq] at h1 <;> omega

theorem chunkOk3 (b b1 b2 : Nat) (hb : 224 ≤ b ∧ b ≤ 239)
    (h1 : cont1Ok3 b b1 = true) (h2 : contOk b2 = true) :
    ([b, b1, b2], (b - 224) * 4096 + (b1 - 128) * 64 + (b2 - 128)).1 ≠ [] ∧
      ([b, b1, b2], (b - 224) * 4096 + (b1 - 128) * 64 + (b2 - 128)).1.length ≤
        (utf8EncodeNat ((b - 224) * 4096 + (b1 - 128) * 64 + (b2 - 128))).length ∧
      (0 ∈ utf8EncodeNat ((b - 224) * 4096 + (b1 - 128) * 64 + (b2 - 128)) →
        ([b, b1, b2], (b - 224) * 4096 + (b1 - 128) * 64 + (b2 - 128)).1 = [0]) := by
  have hv := cont1Ok3_bounds b b1 hb h1
  simp only [contOk, decide_eq_true_eq] at h2
  refine ⟨by simp, ?_, ?_⟩
  · unfold utf8EncodeNat
    rw [if_neg (by omega), if_neg (by omega), if_pos (by omega)]
    simp
  · intro h0
    exact absurd h0 (enc_no_zero _ (by omega))

theorem cont1Ok4_bounds (b b1 : Nat) (hb : 240 ≤ b ∧ b ≤ 244)
    (h1 : cont1Ok4 b b1 = true) :
    65536 ≤ (b - 240) * 262144 + (b1 - 128) * 4096 ∧ 128 ≤ b1 ∧ b1 ≤ 191 := by
  unfold cont1Ok4 at h1
  split_ifs at h1 with hb0 hbD <;>
    simp only [contOk, decide_eq_true_eq] at h1 <;> omega

theorem chunkOk4 (b b1 b2 b3 : Nat) (hb : 240 ≤ b ∧ b ≤ 244)
    (h1 : cont1Ok4 b b1 = true) (_h2 : contOk b2 = true) (_h3 : contOk b3 = true) :
    ([b, b1, b2, b3],
        (b - 240) * 262144 + (b1 - 128) * 4096 + (b2 - 128) * 64 + (b3 - 128)).1 ≠ [] ∧
      ([b, b1, b2, b3],
          (b - 240) * 262144 + (b1 - 128) * 4096 + (b2 - 128) * 64 + (b3 - 128)).1.length ≤
        (utf8EncodeNat
          ((b - 240) * 262144 + (b1 - 128) * 4096 + (b2 - 128) * 64 + (b3 - 128))).length ∧
      (0 ∈ utf8EncodeNat
          ((b - 240) * 262144 + (b1 - 128) * 4096 + (b2 - 128) * 64 + (b3 - 128)) →
        ([b, b1, b2, b3],
          (b - 240) * 262144 + (b1 - 128) * 4096 + (b2 - 128) * 64 + (b3 - 128)).1 = [0]) := by
  have hv := cont1Ok4_bounds b b1 hb h1
  refine ⟨by simp, ?_, ?_⟩
  · unfold utf8EncodeNat
    rw [if_neg (by omega), if_neg (by omega), if_neg (by omega)]
    simp
  · intro h0
    exact absurd h0 (enc_no_zero _ (by omega))

set_option maxHeartbeats 3200000 in
set_option maxRecDepth 4000 in
theorem chunks_ok (l : List Nat) :
    ∀ pr ∈ utf8Chunks l, pr.1 ≠ [] ∧
      pr.1.length ≤ (utf8EncodeNat pr.2).length ∧
      (0 ∈ utf8EncodeNat pr.2 → pr.1 = [0]) := by
  induction l using utf8Chunks.induct <;>
    (rw [utf8Chunks.eq_def]
     simp only []
     try (split_ifs <;> try omega)) <;>
    first
    | (refine List.forall_mem_cons.2 ⟨?_, by assumption⟩
       first
       | (apply chunkOkAscii <;> assumption)
       | (apply chunkOkBad <;> simp)
       | (apply chunkOk2 <;> assumption)
       | (apply chunkOk3 <;> assumption)
       | (apply chunkOk4 <;> assumption))
    | (refine List.forall_mem_singleton.2 ?_
       apply chunkOkBad <;> simp)
    | simp

theorem mem_take_mono (l : List Nat) (m n : Nat) (h : m ≤ n) (hx : 0 ∈ l.take m) :
    0 ∈ l.take n := by
  have h1 : l.take m = (l.take n).take m := by
    rw [List.take_take, Nat.min_eq_left h]
  rw [h1] at hx
  exact List.take_subset m (l.take n) hx

theorem zero_take_transfer (chs : List (List Nat × Nat)) (n : Nat)
    (hok : ∀ pr ∈ chs, pr.1 ≠ [] ∧ pr.1.length ≤ (utf8EncodeNat pr.2).length ∧
      (0 ∈ utf8EncodeNat pr.2 → pr.1 = [0]))
    (hz : 0 ∈ (chs.flatMap fun pr => utf8EncodeNat pr.2).take n) :
    0 ∈ (chs.flatMap Prod.fst).take n := by
  induction chs generalizing n with
  | nil => simp at hz
  | cons hd tl ih =>
    obtain ⟨hne, hlen, hzero⟩ := hok hd (List.mem_cons_self hd tl)
    have hok2 : ∀ pr ∈ tl, pr.1 ≠ [] ∧ pr.1.length ≤ (utf8EncodeNat pr.2).length ∧
        (0 ∈ utf8EncodeNat pr.2 → pr.1 = [0]) :=
      fun pr hpr => hok pr (List.mem_cons_of_mem hd hpr)
    rw [List.flatMap_cons, List.take_append_eq_append_take] at hz
    rw [List.flatMap_cons, List.take_append_eq_append_take]
    rcases List.mem_append.1 hz with hz1 | hz1
    · have hz2 : 0 ∈ utf8EncodeNat hd.2 := List.take_subset n _ hz1
      have hhd : hd.1 = [0] := hzero hz2
      have hn : n ≠ 0 := by
        intro h0
        rw [h0, List.take_zero] at hz1
        simp at hz1
      refine List.mem_append.2 (Or.inl ?_)
      rw [hhd]
      rcases Nat.exists_eq_succ_of_ne_zero hn with ⟨k, rfl⟩
      simp
    · have hz2 := ih _ hok2 hz1
      refine List.mem_append.2 (Or.inr ?_)
      exact mem_take_mono _ _ _ (by omega) hz2

set_option maxHeartbeats 1600000 in
theorem chunks_flat_fst (l : List Nat) : (utf8Chunks l).flatMap Prod.fst = l := by
  induction l using utf8Chunks.induct <;>
    (rw [utf8Chunks.eq_def]
     simp only []
     first
     | rfl
     | (split_ifs <;>
        simp_all [contOk, cont1Ok3, cont1Ok4, List.flatMap_cons]))

theorem decoded_zero_raw (l : List Nat) (n : Nat)
    (h : 0 ∈ (decodedStream l).take n) : 0 ∈ l.take n := by
  have h2 := zero_take_transfer (utf8Chunks l) n (chunks_ok l) h
  rw [chunks_flat_fst] at h2
  exact h2

/-! ## Escaping round-trip -/

theorem esc_no34 (s : Str) : 34 ∉ escape s := by
  induction s with
  | nil => simp [escape]
  | cons c t ih =>
    simp only [escape, List.flatMap_cons]
    intro h
    rcases List.mem_append.1 h with h1 | h1
    · unfold escChar at h1
      split_ifs at h1 <;> simp_all
    · exact ih h1

theorem esc_no60 (s : Str) : 60 ∉ escape s := by
  induction s with
  | nil => simp [escape]
  | cons c t ih =>
    simp only [escape, List.flatMap_cons]
    intro h
    rcases List.mem_append.1 h with h1 | h1
    · unfold escChar at h1
      split_ifs at h1 <;> simp_all
    · exact ih h1

theorem entScan_amp (tl : Str) :
    entScan (97 :: 109 :: 112 :: 59 :: tl) = some (38, tl) := by
  simp [entScan]

theorem entScan_lt (tl : Str) :
    entScan (108 :: 116 :: 59 :: tl) = some (60, tl) := by
  simp [entScan]

theorem entScan_gt (tl : Str) :
    entScan (103 :: 116 :: 59 :: tl) = some (62, tl) := by
  simp [entScan]

theorem entScan_apos (tl : Str) :
    entScan (97 :: 112 :: 111 :: 115 :: 59 :: tl) = some (39, tl) := by
  simp [entScan]

theorem entScan_quot (tl : Str) :
    entScan (113 :: 117 :: 111 :: 116 :: 59 :: tl) = some (34, tl) := by
  simp [entScan]

theorem unescapeF_escape (t : Str) :
    ∀ fuel, (escape t).length ≤ fuel → unescapeF fuel (escape t) = t := by
  induction t with
  | nil =>
    intro fuel _
    cases fuel <;> rfl
  | cons c t ih =>
    intro fuel hfuel
    have hesc : escape (c :: t) = escChar c ++ escape t := by
      simp [escape]
    rw [hesc] at hfuel ⊢
    have hcl : 1 ≤ (escChar c).length := by
      unfold escChar
      split_ifs <;> simp
    have hcl6 : (escChar c).length ≤ 6 := by
      unfold escChar
      split_ifs <;> simp
    rw [List.length_append] at hfuel
    rcases Nat.exists_eq_succ_of_ne_zero (show fuel ≠ 0 by omega) with ⟨f, rfl⟩
    by_cases h38 : c = 38
    · subst h38
      rw [show escChar 38 ++ escape t = 38 :: 97 :: 109 :: 112 :: 59 :: escape t from rfl]
      simp only [unescapeF, if_pos rfl, entScan_amp, if_true, eq_self_iff_true]
      rw [ih f (by simp [escChar] at hfuel ⊢; omega)]
    · by_cases h60 : c = 60
      · subst h60
        rw [show escChar 60 ++ escape t = 38 :: 108 :: 116 :: 59 :: escape t from rfl]
        simp only [unescapeF, if_pos rfl, entScan_lt, if_true, eq_self_iff_true]
        rw [ih f (by simp [escChar] at hfuel ⊢; omega)]
      · by_cases h62 : c = 62
        · subst h62
          rw [show escChar 62 ++ escape t = 38 :: 103 :: 116 :: 59 :: escape t from rfl]
          simp only [unescapeF, if_pos rfl, entScan_gt, if_true, eq_self_iff_true]
          rw [ih f (by simp [escChar] at hfuel ⊢; omega)]
        · by_cases h39 : c = 39
          · subst h39
            rw [show escChar 39 ++ escape t = 38 :: 97 :: 112 :: 111 :: 115 :: 59 :: escape t from rfl]
            simp only [unescapeF, if_pos rfl, entScan_apos, if_true, eq_self_iff_true]
            rw [ih f (by simp [escChar] at hfuel ⊢; omega)]
          · by_cases h34 : c = 34
            · subst h34
              rw [show escChar 34 ++ escape t = 38 :: 113 :: 117 :: 111 :: 116 :: 59 :: escape t from rfl]
              simp only [unescapeF, if_pos rfl, entScan_quot, if_true, eq_self_iff_true]
              rw [ih f (by simp [escChar] at hfuel ⊢; omega)]
            · have hc : escChar c = [c] := by
                unfold escChar
                rw [if_neg h38, if_neg h60, if_neg h62, if_neg h39, if_neg h34]
              rw [hc] at hfuel ⊢
              rw [show [c] ++ escape t = c :: escape t from rfl]
              simp only [unescapeF]
              rw [if_neg h38]
              rw [ih f (by simp at hfuel ⊢; omega)]

theorem unescape_escape (s : Str) : unescape (escape s) = s :=
  unescapeF_escape s (escape s).length le_rfl

/-! ## Parser round-trip -/

theorem dropPre_same (p : Str) : ∀ r, dropPre p (p ++ r) = some r := by
  induction p with
  | nil => intro r; rfl
  | cons c cs ih =>
    intro r
    show dropPre (c :: cs) (c :: (cs ++ r)) = some r
    simp only [dropPre, if_pos rfl]
    exact ih r

theorem splitAt34_esc (pre : Str) (h : 34 ∉ pre) :
    ∀ rest, splitAt34 (pre ++ 34 :: rest) = some (pre, rest) := by
  induction pre with
  | nil =>
    intro rest
    simp [splitAt34]
  | cons c cs ih =>
    intro rest
    have hc : c ≠ 34 := fun hh => h (hh ▸ List.mem_cons_self c cs)
    have hcs : 34 ∉ cs := fun hh => h (List.mem_cons_of_mem c hh)
    show splitAt34 (c :: (cs ++ 34 :: rest)) = some (c :: cs, rest)
    simp only [splitAt34, if_neg hc, ih hcs rest]
    rfl

theorem splitAt60_esc (pre : Str) (h : 60 ∉ pre) :
    ∀ rest, splitAt60 (pre ++ 60 :: rest) = some (pre, 60 :: rest) := by
  induction pre with
  | nil =>
    intro rest
    simp [splitAt60]
  | cons c cs ih =>
    intro rest
    have hc : c ≠ 60 := fun hh => h (hh ▸ List.mem_cons_self c cs)
    have hcs : 60 ∉ cs := fun hh => h (List.mem_cons_of_mem c hh)
    show splitAt60 (c :: (cs ++ 60 :: rest)) = some (c :: cs, 60 :: rest)
    simp only [splitAt60, if_neg hc, ih hcs rest]
    rfl

theorem dropPre_close_open (X : Str) :
    dropPre repoCloseC (itemOpenC ++ X) = none := by
  simp [repoCloseC, itemOpenC, dropPre]

theorem dropPre_bin_gt (X : Str) : dropPre binTailC (62 :: X) = none := by
  simp [binTailC, dropPre]

theorem parse_step_bin (p : Str) (f : Nat) (s : Str) :
    parseItemsF (f + 1) (renderItem ⟨p, none⟩ ++ s) =
      (parseItemsF f s).map fun its => (⟨p, none⟩ : Item) :: its := by
  have hr : renderItem ⟨p, none⟩ ++ s =
      itemOpenC ++ (escape p ++ (34 :: (binTailC ++ s))) := by
    simp [renderItem, quoteC, List.append_assoc]
  rw [hr]
  simp only [parseItemsF, dropPre_close_open, dropPre_same,
    splitAt34_esc (escape p) (esc_no34 p) (binTailC ++ s), unescape_escape]
  cases parseItemsF f s <;> rfl

theorem parse_step_text (p c : Str) (f : Nat) (s : Str) :
    parseItemsF (f + 1) (renderItem ⟨p, some c⟩ ++ s) =
      (parseItemsF f s).map fun its => (⟨p, some c⟩ : Item) :: its := by
  have hfc : fileCloseC = 60 :: [47, 102, 105, 108, 101, 62] := by rfl
  have hr : renderItem ⟨p, some c⟩ ++ s =
      itemOpenC ++ (escape p ++ (34 :: (62 ::
        (escape c ++ (60 :: ([47, 102, 105, 108, 101, 62] ++ s)))))) := by
    simp [renderItem, quoteC, gtC, hfc, List.append_assoc]
  rw [hr]
  have hgt : dropPre gtC (62 :: (escape c ++ (60 :: ([47, 102, 105, 108, 101, 62] ++ s)))) =
      some (escape c ++ (60 :: ([47, 102, 105, 108, 101, 62] ++ s))) := by
    simp [gtC, dropPre]
  have hclose : dropPre fileCloseC (60 :: ([47, 102, 105, 108, 101, 62] ++ s)) =
      some s := by
    rw [hfc]
    exact dropPre_same (60 :: [47, 102, 105, 108, 101, 62]) s
  simp only [parseItemsF, dropPre_close_open, dropPre_same,
    splitAt34_esc (escape p) (esc_no34 p) _, dropPre_bin_gt, hgt,
    splitAt60_esc (escape c) (esc_no60 c) _, hclose, unescape_escape]
  cases parseItemsF f s <;> rfl

theorem renderItem_len_pos (it : Item) : 1 ≤ (renderItem it).length := by
  cases hco : it.content <;>
    simp [renderItem, hco, itemOpenC]

theorem parse_items_render (items : List Item) :
    ∀ fuel, (items.flatMap renderItem).length < fuel →
      parseItemsF fuel (items.flatMap renderItem ++ repoCloseC) = some items := by
  induction items with
  | nil =>
    intro fuel hfuel
    rcases Nat.exists_eq_succ_of_ne_zero (show fuel ≠ 0 by omega) with ⟨f, rfl⟩
    show parseItemsF (f + 1) ([] ++ repoCloseC) = some []
    rw [List.nil_append]
    have hc : dropPre repoCloseC repoCloseC = some [] := by
      have := dropPre_same repoCloseC []
      rwa [List.append_nil] at this
    simp only [parseItemsF, hc]
    rfl
  | cons it its ih =>
    intro fuel hfuel
    rw [List.flatMap_cons, List.length_append] at hfuel
    have h1 := renderItem_len_pos it
    rcases Nat.exists_eq_succ_of_ne_zero (show fuel ≠ 0 by omega) with ⟨f, rfl⟩
    have hshape : (renderItem it ++ its.flatMap renderItem) ++ repoCloseC =
        renderItem it ++ (its.flatMap renderItem ++ repoCloseC) := by
      rw [List.append_assoc]
    rw [List.flatMap_cons, hshape]
    obtain ⟨p, co⟩ := it
    cases co with
    | none =>
      rw [parse_step_bin p f _, ih f (by omega)]
      rfl
    | some c =>
      rw [parse_step_text p c f _, ih f (by omega)]
      rfl

theorem parse_render_doc (items : List Item) :
    parseDoc (renderDoc items) = some items := by
  have hdoc : renderDoc items =
      declC ++ (repoOpenC ++ (items.flatMap renderItem ++ repoCloseC)) := by
    simp [renderDoc, List.append_assoc]
  rw [hdoc]
  simp only [parseDoc, dropPre_same]
  exact parse_items_render items _
    (by
      rw [List.length_append]
      omega)

theorem DiscInv.push (fr : FlattenRepo) (seen files : List Str) (rel : Str)
    (h : DiscInv fr seen files) (hseen : rel ∉ seen)
    (hip : is_ignored_by_patterns fr rel = false) :
    DiscInv fr (rel :: seen) (files ++ [rel]) := by
  obtain ⟨hnd, hsub, hign⟩ := h
  refine ⟨?_, ?_, ?_⟩
  · rw [List.nodup_append]
    refine ⟨hnd, List.nodup_singleton _, ?_⟩
    intro x hx hx1
    rw [List.mem_singleton] at hx1
    subst hx1
    exact hseen (hsub x hx)
  · intro p hp
    rcases List.mem_append.1 hp with hp1 | hp1
    · exact List.mem_cons_of_mem _ (hsub p hp1)
    · rw [List.mem_singleton] at hp1
      subst hp1
      exact List.mem_cons_self _ _
  · intro p hp
    rcases List.mem_append.1 hp with hp1 | hp1
    · exact hign p hp1
    · rw [List.mem_singleton] at hp1
      subst hp1
      exact hip

theorem globStep_inv (fr : FlattenRepo) (env : Env) (acc : List Str × List Str)
    (entry : Except Error Str) (h : DiscInv fr acc.1 acc.2) :
    DiscInv fr (globStep fr env acc entry).1 (globStep fr env acc entry).2 := by
  cases entry with
  | error e => exact h
  | ok path =>
    simp only [globStep]
    split_ifs with hf hseen hip hgit
    · exact h
    · exact h
    · exact h
    · exact DiscInv.push fr acc.1 acc.2 (stripDot path) h hseen (by simpa using hip)
    · exact h

theorem foldl_globStep_inv (fr : FlattenRepo) (env : Env)
    (entries : List (Except Error Str)) :
    ∀ acc : List Str × List Str, DiscInv fr acc.1 acc.2 →
      DiscInv fr (entries.foldl (globStep fr env) acc).1
        (entries.foldl (globStep fr env) acc).2 := by
  induction entries with
  | nil => intro acc h; exact h
  | cons e es ih =>
    intro acc h
    rw [List.foldl_cons]
    exact ih _ (globStep_inv fr env acc e h)

theorem findFilesGo_inv (fr : FlattenRepo) (env : Env) :
    ∀ (pats : List Str) (seen files out : List Str),
      DiscInv fr seen files →
      findFilesGo fr env pats seen files = .ok out →
      out.Nodup ∧ (∀ p ∈ out, is_ignored_by_patterns fr p = false) := by
  intro pats
  induction pats with
  | nil =>
    intro seen files out h hok
    cases hok
    exact ⟨h.1, h.2.2⟩
  | cons pat rest ih =>
    intro seen files out h hok
    unfold findFilesGo at hok
    split_ifs at hok with hf hseen hip hgit
    · exact ih seen files out h hok
    · exact ih seen files out h hok
    · exact ih seen files out h hok
    · exact ih _ _ out
        (DiscInv.push fr seen files _ h hseen (by simpa using hip)) hok
    · cases hglob : env.glob (rewriteEntry fr env pat) with
      | error e =>
        rw [hglob] at hok
        cases hok
      | ok entries =>
        rw [hglob] at hok
        have h2 := foldl_globStep_inv fr env entries (seen, files) h
        exact ih _ _ out h2 hok

theorem find_files_inv (fr : FlattenRepo) (env : Env) (files : List Str)
    (h : find_files fr env = .ok files) :
    files.Nodup ∧ ∀ p ∈ files, is_ignored_by_patterns fr p = false :=
  findFilesGo_inv fr env fr.config.paths [] [] files
    ⟨List.nodup_nil, by simp, by simp⟩ h

theorem readFileC_error (env : Env) (p : Str) (e : Error)
    (h : readFileC env p = .error e) : e = Error.io := by
  unfold readFileC at h
  cases hb : env.fileBytes p with
  | none =>
    rw [hb] at h
    cases h
    rfl
  | some bs =>
    rw [hb] at h
    simp only [] at h
    unfold read_file_contents at h
    split_ifs at h with h1 h2 <;> cases h <;> rfl

theorem fileItem_error (env : Env) (p : Str) (e : Error)
    (h : fileItem env p = .error e) : e = Error.io := by
  unfold fileItem at h
  cases hr : readFileC env p with
  | error e2 =>
    rw [hr] at h
    cases h
    exact readFileC_error env p e hr
  | ok pr =>
    rw [hr] at h
    obtain ⟨b, co⟩ := pr
    cases b <;> cases h

theorem fileItem_path (env : Env) (p : Str) (it : Item)
    (h : fileItem env p = .ok it) : it.path = p := by
  unfold fileItem at h
  cases hr : readFileC env p with
  | error e2 =>
    rw [hr] at h
    cases h
  | ok pr =>
    rw [hr] at h
    obtain ⟨b, co⟩ := pr
    cases b
    · cases h
      rfl
    · cases h
      rfl

theorem buildItems_paths (env : Env) :
    ∀ (files : List Str) (items : List Item),
      buildItems env files = .ok items → items.map Item.path = files := by
  intro files
  induction files with
  | nil =>
    intro items h
    cases h
    rfl
  | cons p ps ih =>
    intro items h
    unfold buildItems at h
    cases hf : fileItem env p with
    | error e =>
      rw [hf] at h
      cases h
    | ok it =>
      rw [hf] at h
      cases hb : buildItems env ps with
      | error e =>
        rw [hb] at h
        cases h
      | ok its =>
        rw [hb] at h
        cases h
        simp [List.map_cons, fileItem_path env p it hf, ih its hb]

theorem buildItems_err (env : Env) :
    ∀ (files : List Str) (p : Str), p ∈ files →
      readFileC env p = .error .io → buildItems env files = .error .io := by
  intro files
  induction files with
  | nil =>
    intro p hp
    cases hp
  | cons q qs ih =>
    intro p hp hread
    unfold buildItems
    rcases List.mem_cons.1 hp with hp1 | hp1
    · subst hp1
      have hq : fileItem env p = .error .io := by
        unfold fileItem
        rw [hread]
      rw [hq]
    · cases hf : fileItem env q with
      | error e =>
        rw [fileItem_error env q e hf]
      | ok it =>
        rw [ih p hp1 hread]

/-! ## Symbolic evaluation helpers for the counterexample inputs -/

theorem chunks_ascii_cons (b : Nat) (hb : b < 128) (rest : List Nat) :
    utf8Chunks (b :: rest) = ([b], b) :: utf8Chunks rest := by
  rw [utf8Chunks.eq_def]
  simp only []
  rw [if_pos hb]

theorem chunks_ff_cons (rest : List Nat) :
    utf8Chunks (255 :: rest) = ([255], 65533) :: utf8Chunks rest := by
  rw [utf8Chunks.eq_def]
  simp only []
  rw [if_neg (by norm_num), if_neg (by norm_num), if_neg (by norm_num),
    if_neg (by norm_num)]

theorem chunks_rep97 (n : Nat) (rest : List Nat) :
    utf8Chunks (List.replicate n 97 ++ rest) =
      List.replicate n ([97], 97) ++ utf8Chunks rest := by
  induction n with
  | zero => simp
  | succ k ih =>
    rw [List.replicate_succ, List.cons_append, List.replicate_succ,
      chunks_ascii_cons 97 (by norm_num), ih, List.cons_append]

theorem chunks_rep255 (n : Nat) (rest : List Nat) :
    utf8Chunks (List.replicate n 255 ++ rest) =
      List.replicate n ([255], 65533) ++ utf8Chunks rest := by
  induction n with
  | zero => simp
  | succ k ih =>
    rw [List.replicate_succ, List.cons_append, List.replicate_succ,
      chunks_ff_cons, ih, List.cons_append]

theorem flatMap_rep97 (n : Nat) :
    ((List.replicate n (([97], 97) : List Nat × Nat)).flatMap
      fun pr => utf8EncodeNat pr.2) = List.replicate n 97 := by
  induction n with
  | zero => rfl
  | succ k ih =>
    rw [List.replicate_succ, List.flatMap_cons, ih, List.replicate_succ]
    rfl

theorem flatMap_rep255_facts (n : Nat) :
    ((List.replicate n (([255], 65533) : List Nat × Nat)).flatMap
        fun pr => utf8EncodeNat pr.2).length = 3 * n ∧
      0 ∉ ((List.replicate n (([255], 65533) : List Nat × Nat)).flatMap
        fun pr => utf8EncodeNat pr.2) := by
  induction n with
  | zero => simp
  | succ k ih =>
    rw [List.replicate_succ, List.flatMap_cons]
    constructor
    · rw [List.length_append, ih.1]
      have h3 : (utf8EncodeNat 65533).length = 3 := by rfl
      simp only [h3]
      omega
    · intro h
      rcases List.mem_append.1 h with h1 | h1
      · have : (0 : Nat) ∉ utf8EncodeNat 65533 := by decide
        exact this h1
      · exact ih.2 h1

theorem c5bytes_chunks :
    utf8Chunks c5bytes = List.replicate 8191 ([97], 97) ++ [([195, 169], 233)] := by
  unfold c5bytes
  rw [chunks_rep97]
  rfl

theorem c5bytes_decoded :
    decodedStream c5bytes = List.replicate 8191 97 ++ [195, 169] := by
  unfold decodedStream
  rw [c5bytes_chunks, List.flatMap_append, flatMap_rep97]
  rfl

theorem c5bytes_take :
    (decodedStream c5bytes).take 8192 = List.replicate 8191 97 ++ [195] := by
  rw [c5bytes_decoded, List.take_append_eq_append_take,
    List.take_of_length_le (by rw [List.length_replicate]; omega),
    List.length_replicate]
  rfl

theorem c5bytes_drop : (decodedStream c5bytes).drop 8192 = [169] := by
  rw [c5bytes_decoded, List.drop_append_eq_append_drop,
    List.drop_of_length_le (by rw [List.length_replicate]; omega),
    List.length_replicate]
  rfl

theorem c5bytes_no_zero : 0 ∉ (decodedStream c5bytes).take 8192 := by
  rw [c5bytes_take]
  intro h
  rcases List.mem_append.1 h with h1 | h1
  · rcases List.mem_replicate.1 h1 with ⟨-, h2⟩
    cases h2
  · rcases List.mem_singleton.1 h1 with h2
    cases h2

theorem exBytes_chunks :
    utf8Chunks exBytes = List.replicate 5462 ([97], 97) ++
      (List.replicate 910 ([255], 65533) ++ [([0], 0)]) := by
  unfold exBytes
  rw [chunks_rep97, chunks_rep255]
  rfl

theorem exBytes_decoded :
    decodedStream exBytes = List.replicate 5462 97 ++
      (((List.replicate 910 (([255], 65533) : List Nat × Nat)).flatMap
        fun pr => utf8EncodeNat pr.2) ++ [0]) := by
  unfold decodedStream
  rw [exBytes_chunks, List.flatMap_append, List.flatMap_append, flatMap_rep97]
  rfl

theorem exBytes_take :
    (decodedStream exBytes).take 8192 = List.replicate 5462 97 ++
      ((List.replicate 910 (([255], 65533) : List Nat × Nat)).flatMap
        fun pr => utf8EncodeNat pr.2) := by
  obtain ⟨hlen, -⟩ := flatMap_rep255_facts 910
  rw [exBytes_decoded, List.take_append_eq_append_take,
    List.take_of_length_le (by rw [List.length_replicate]; omega),
    List.length_replicate, List.take_append_eq_append_take,
    List.take_of_length_le (by omega), hlen]
  norm_num

theorem exBytes_drop : (decodedStream exBytes).drop 8192 = [0] := by
  obtain ⟨hlen, -⟩ := flatMap_rep255_facts 910
  rw [exBytes_decoded, List.drop_append_eq_append_drop,
    List.drop_of_length_le (by rw [List.length_replicate]; omega),
    List.length_replicate, List.drop_append_eq_append_drop,
    List.drop_of_length_le (by omega), hlen]
  norm_num

theorem exBytes_no_zero : 0 ∉ (decodedStream exBytes).take 8192 := by
  obtain ⟨-, hmem⟩ := flatMap_rep255_facts 910
  rw [exBytes_take]
  intro h
  rcases List.mem_append.1 h with h1 | h1
  · rcases List.mem_replicate.1 h1 with ⟨-, h2⟩
    cases h2
  · exact hmem h1

/-! ## Claims -/

theorem generate_xml_eq (fr : FlattenRepo) (env : Env) (files : List Str)
    (h : find_files fr env = .ok files) :
    generate_xml fr env = generate_xml_from_files env files := by
  unfold generate_xml
  rw [h]

theorem generate_xml_from_files_eq (env : Env) (files : List Str)
    (items : List Item) (h : buildItems env files = .ok items) :
    generate_xml_from_files env files = .ok (renderDoc items) := by
  unfold generate_xml_from_files
  rw [h]

theorem generate_xml_from_files_err (env : Env) (files : List Str) (e : Error)
    (h : buildItems env files = .error e) :
    generate_xml_from_files env files = .error e := by
  unfold generate_xml_from_files
  rw [h]

/-- C1: for every configuration and fixed filesystem snapshot, each file that
passes filtering appears exactly once in the final XML document, in discovery
order: the document is the rendering of the per-file items, the item paths
are exactly the discovered list in order, and the discovered list has no
duplicates regardless of how many path or glob entries matched a file. -/
theorem c1_dedup_order (fr : FlattenRepo) (env : Env) (files : List Str)
    (items : List Item) (h1 : find_files fr env = .ok files)
    (h2 : buildItems env files = .ok items) :
    generate_xml fr env = .ok (renderDoc items) ∧
      items.map Item.path = files ∧ files.Nodup := by
  refine ⟨?_, buildItems_paths env files items h2,
    (find_files_inv fr env files h1).1⟩
  rw [generate_xml_eq fr env files h1]
  exact generate_xml_from_files_eq env files items h2

theorem c1_witness :
    generate_xml frDup envOk = .ok (renderDoc [⟨fileA, some [104, 105]⟩]) ∧
      ([⟨fileA, some [104, 105]⟩] : List Item).map Item.path = [fileA] ∧
      ([fileA] : List Str).Nodup :=
  c1_dedup_order frDup envOk [fileA] [⟨fileA, some [104, 105]⟩]
    (by rfl) (by rfl)

/-- C2 (amended): classification is computed from the first 8192 bytes of
the replacement-decoded stream, not of the raw file: a zero byte within the
first 8192 decoded bytes classifies the file Binary with no content
materialized, and when the first 8192 raw bytes contain no zero byte the
file is never classified Binary (in particular, a zero byte only past the
raw 8192-byte prefix never causes a Binary classification).  A zero byte
inside the first 8192 raw bytes can still yield a Text classification when
preceded by invalid sequences whose replacement expansion pushes it past the
decoded prefix. -/
theorem c2_binary_classification (bytes : List Nat) :
    (0 ∈ (decodedStream bytes).take BINARY_FILE_CHECK_SIZE →
        read_file_contents bytes = .ok (true, none)) ∧
      (0 ∉ bytes.take BINARY_FILE_CHECK_SIZE →
        ∀ co, read_file_contents bytes ≠ .ok (true, co)) := by
  constructor
  · intro hz
    unfold read_file_contents
    rw [if_pos hz]
  · intro hraw co hcontra
    unfold read_file_contents at hcontra
    split_ifs at hcontra with h1 h2
    · exact hraw (decoded_zero_raw bytes _ h1)
    all_goals simp at hcontra

theorem c2_witness :
    read_file_contents [0] = .ok (true, none) ∧
      read_file_contents [97] ≠ .ok (true, none) :=
  ⟨(c2_binary_classification [0]).1 (by decide),
    (c2_binary_classification [97]).2 (by decide) none⟩

/-- C2 counterexample: `exBytes` has a zero byte at raw offset 6372, inside
its first 8192 bytes, yet `read_file_contents` classifies it as Text, because
the 910 invalid `0xFF` bytes before the zero expand to three decoded bytes
each and push the zero past the 8192-byte decoded probe window. -/
theorem c2_counterexample :
    0 ∈ exBytes.take BINARY_FILE_CHECK_SIZE ∧ classifiedText exBytes = true := by
  constructor
  · have hlen : exBytes.length = 6373 := by
      unfold exBytes
      rw [List.length_append, List.length_append, List.length_replicate,
        List.length_replicate]
      rfl
    unfold BINARY_FILE_CHECK_SIZE
    rw [List.take_of_length_le (by omega)]
    unfold exBytes
    refine List.mem_append.2 (Or.inr (List.mem_append.2 (Or.inr ?_)))
    exact List.mem_singleton.2 rfl
  · unfold classifiedText read_file_contents BINARY_FILE_CHECK_SIZE
    rw [if_neg exBytes_no_zero, exBytes_drop,
      if_pos (show utf8ValidB [0] = true from rfl)]

/-- C3: the emitted document is structurally well-formed and parsing it with
`parseDoc` recovers every element path (from the `path` attribute) and every
text body exactly, for all path and content strings, including strings
containing the XML metacharacters that `escape` rewrites. -/
theorem c3_escaping_roundtrip (items : List Item) :
    parseDoc (renderDoc items) = some items :=
  parse_render_doc items

/-- C4: a candidate relative path matched by any successfully compiled
exclusion pattern (find-style matching anywhere in the path) is absent from
the discovered file list and from the paths of the emitted document. -/
theorem c4_exclusion (fr : FlattenRepo) (env : Env) (P : Str) (pat : Pat)
    (files : List Str) (h1 : pat ∈ fr.ignore_patterns)
    (h2 : (pat.find P).isSome = true) (h3 : find_files fr env = .ok files) :
    P ∉ files ∧
      ∀ items, buildItems env files = .ok items → P ∉ items.map Item.path := by
  have hign := (find_files_inv fr env files h3).2
  have hP : is_ignored_by_patterns fr P = true := by
    unfold is_ignored_by_patterns
    exact List.any_eq_true.2 ⟨pat, h1, h2⟩
  have hnot : P ∉ files := by
    intro hmem
    rw [hign P hmem] at hP
    cases hP
  refine ⟨hnot, ?_⟩
  intro items hits
  rw [buildItems_paths env files items hits]
  exact hnot

theorem c4_witness :
    fileA ∉ ([] : List Str) ∧
      ∀ items, buildItems envOk [] = .ok items →
        fileA ∉ items.map Item.path :=
  c4_exclusion frIgn envOk fileA patA [] (List.mem_cons_self _ _)
    (by rfl) (by rfl)

/-- C5: evaluation of the code at the failing input.  `c5bytes` is a valid
UTF-8 text file with no zero byte whose two-byte character straddles the
8192-byte probe boundary; the probe consumes the first byte of the
character, the remainder begins with a lone continuation byte, and the
`read_to_string` pass fails with an InvalidData I/O error, so reading a file
classified as text fails because of encoding alone, against the spec. -/
theorem c5_read_failure : read_file_contents c5bytes = .error Error.io := by
  unfold read_file_contents BINARY_FILE_CHECK_SIZE
  rw [if_neg c5bytes_no_zero, c5bytes_drop,
    if_neg (show ¬utf8ValidB [169] = true by decide)]

/-- C6: when opening or reading any discovered file fails with an I/O error,
the whole run aborts with that I/O error (no per-file skip), and main emits
nothing to standard output. -/
theorem c6_read_error_aborts (env : Env) (cfg : Config) (fr : FlattenRepo)
    (files : List Str) (p : Str)
    (h0 : FlattenRepo.new env (mainCfg cfg) = .ok fr)
    (h1 : find_files fr env = .ok files) (h2 : p ∈ files)
    (h3 : readFileC env p = .error Error.io) :
    generate_xml fr env = .error Error.io ∧ mainOut env cfg = none := by
  have hb := buildItems_err env files p h2 h3
  have hg : generate_xml fr env = .error Error.io := by
    rw [generate_xml_eq fr env files h1]
    exact generate_xml_from_files_err env files Error.io hb
  refine ⟨hg, ?_⟩
  unfold mainOut
  rw [h0]
  simp only [hg]

theorem c6_witness :
    generate_xml frA envErr = .error Error.io ∧ mainOut envErr cfgA = none :=
  c6_read_error_aborts envErr cfgA frA [fileA] fileA (by rfl) (by rfl)
    (List.mem_cons_self _ _) (by rfl)

/-- C7: during glob expansion, a malformed glob pattern for the whole entry
is fatal (the discovery loop returns that error), while an error on a single
match within an otherwise valid expansion is skipped and expansion continues
with the remaining matches unchanged. -/
theorem c7_glob_error_policy :
    (∀ (fr : FlattenRepo) (env : Env) (pat : Str)
        (rest seen files : List Str) (e : Error),
        env.isFile (rewriteEntry fr env pat) = false →
        env.glob (rewriteEntry fr env pat) = .error e →
        findFilesGo fr env (pat :: rest) seen files = .error e) ∧
      (∀ (fr : FlattenRepo) (env : Env) (acc : List Str × List Str)
          (es1 es2 : List (Except Error Str)) (e : Error),
        List.foldl (globStep fr env) acc (es1 ++ .error e :: es2) =
          List.foldl (globStep fr env) acc (es1 ++ es2)) := by
  constructor
  · intro fr env pat rest seen files e hf hg
    unfold findFilesGo
    rw [if_neg (by simp [hf]), hg]
  · intro fr env acc es1 es2 e
    induction es1 generalizing acc with
    | nil =>
      rw [List.nil_append, List.nil_append, List.foldl_cons]
      rfl
    | cons hd tl ih =>
      rw [List.cons_append, List.cons_append, List.foldl_cons, List.foldl_cons,
        ih]

theorem c7_witness :
    findFilesGo frGlob envGlob [[98]] [] [] = .error Error.globPat :=
  c7_glob_error_policy.1 frGlob envGlob [98] [] [] [] Error.globPat
    (by rfl) (by rfl)

theorem compileAll_error_iff (env : Env) :
    ∀ ps : List Str, (∃ e, compileAll env ps = .error e) ↔
      ∃ p ∈ ps, ∃ e, env.compilePattern p = .error e := by
  intro ps
  induction ps with
  | nil => simp [compileAll]
  | cons q qs ih =>
    constructor
    · rintro ⟨e, he⟩
      unfold compileAll at he
      cases hq : env.compilePattern q with
      | error e2 => exact ⟨q, List.mem_cons_self _ _, e2, hq⟩
      | ok pat =>
        rw [hq] at he
        cases hr : compileAll env qs with
        | error e3 =>
          obtain ⟨p, hp, hcp⟩ := ih.1 ⟨e3, hr⟩
          exact ⟨p, List.mem_cons_of_mem _ hp, hcp⟩
        | ok pats =>
          rw [hr] at he
          cases he
    · rintro ⟨p, hp, e, hcp⟩
      rcases List.mem_cons.1 hp with hp1 | hp1
      · subst hp1
        refine ⟨e, ?_⟩
        unfold compileAll
        rw [hcp]
      · obtain ⟨e2, he2⟩ := ih.2 ⟨p, hp1, e, hcp⟩
        cases hq : env.compilePattern q with
        | error e3 =>
          refine ⟨e3, ?_⟩
          unfold compileAll
          rw [hq]
        | ok pat =>
          refine ⟨e2, ?_⟩
          unfold compileAll
          rw [hq, he2]

/-- C8: pipeline initialization fails exactly when some configured ignore
pattern fails to compile, so a malformed pattern is surfaced before any
discovery or output and no pattern is silently skipped. -/
theorem c8_bad_pattern_fatal (env : Env) (cfg : Config) :
    (∃ e, FlattenRepo.new env cfg = .error e) ↔
      ∃ p ∈ cfg.ignore_patterns, ∃ e, env.compilePattern p = .error e := by
  rw [← compileAll_error_iff env cfg.ignore_patterns]
  unfold FlattenRepo.new
  have hpats : (defaultPaths cfg).ignore_patterns = cfg.ignore_patterns := by
    unfold defaultPaths
    by_cases hp : cfg.paths.isEmpty <;> simp [hp]
  rw [hpats]
  cases hc : compileAll env cfg.ignore_patterns with
  | error e => simp
  | ok pats => simp

/-- C9: the pipeline is deterministic: two runs of `generate_xml` against
the same environment snapshot and the same state produce the same output
string byte for byte. -/
theorem c9_deterministic (fr : FlattenRepo) (env : Env) (xml1 xml2 : Str)
    (h1 : generate_xml fr env = .ok xml1)
    (h2 : generate_xml fr env = .ok xml2) : xml1 = xml2 := by
  rw [h1] at h2
  exact Except.ok.inj h2

theorem c9_witness :
    renderDoc [⟨fileA, some [104, 105]⟩] = renderDoc [⟨fileA, some [104, 105]⟩] :=
  c9_deterministic frA envOk (renderDoc [⟨fileA, some [104, 105]⟩])
    (renderDoc [⟨fileA, some [104, 105]⟩]) (by rfl) (by rfl)

/-- C10: an existing readable file with zero bytes of data is classified
Text with empty content, never Binary, and its element renders with a start
tag, empty body and matching end tag rather than an empty element with a
binary attribute. -/
theorem c10_empty_file (env : Env) (p : Str) (h : env.fileBytes p = some []) :
    readFileC env p = .ok (false, some []) ∧
      fileItem env p = .ok ⟨p, some []⟩ ∧
      renderItem ⟨p, some []⟩ =
        itemOpenC ++ escape p ++ quoteC ++ gtC ++ fileCloseC := by
  have hr : readFileC env p = .ok (false, some []) := by
    unfold readFileC
    rw [h]
    rfl
  refine ⟨hr, ?_, ?_⟩
  · unfold fileItem
    rw [hr]
    rfl
  · simp [renderItem, escape]

theorem c10_witness :
    readFileC envEmpty fileA = .ok (false, some []) ∧
      fileItem envEmpty fileA = .ok ⟨fileA, some []⟩ ∧
      renderItem ⟨fileA, some []⟩ =
        itemOpenC ++ escape fileA ++ quoteC ++ gtC ++ fileCloseC :=
  c10_empty_file envEmpty fileA (by rfl)
